import Mathlib

/-!
Verification of the PromptStash self-improvement pipeline core: the
similarity retriever, rule-based transformer, quality judge (remote path
modelled by an outcome oracle, deterministic heuristic fallback), the
version ledger with its recommendation invariant, and the update
scheduler optimize cycle. Definitions are shallow embeddings of the
TypeScript sources (src/llmJudge.ts, src/optimizer.ts,
src/versionManager.ts, src/scheduler.ts); machine numbers are modelled
as exact rationals.
-/

namespace PromptStash

/-! ### Kernel-computable rational arithmetic

The standard rational operations in Batteries are marked irreducible,
so the embedding uses these computable equivalents; the lemmas below
rewrite them to the standard operations for symbolic reasoning. -/

def qAdd (a b : ℚ) : ℚ := Rat.divInt (a.num * b.den + b.num * a.den) (a.den * b.den)

def qMul (a b : ℚ) : ℚ := Rat.divInt (a.num * b.num) (a.den * b.den)

def qDiv (a b : ℚ) : ℚ := Rat.divInt (a.num * b.den) (a.den * b.num)

def qSub (a b : ℚ) : ℚ := qAdd a (-b)

/-- JS Math.round: round half toward positive infinity. -/
def jsRound (a : ℚ) : ℤ := ⌊qAdd a (mkRat 1 2)⌋

lemma den_cast_ne_zero (a : ℚ) : ((a.den : ℚ)) ≠ 0 := Nat.cast_ne_zero.mpr a.den_nz

lemma num_cast_eq (a : ℚ) : ((a.num : ℚ)) = a * a.den :=
  (div_eq_iff (den_cast_ne_zero a)).mp (Rat.num_div_den a)

lemma qAdd_eq (a b : ℚ) : qAdd a b = a + b := by
  rw [qAdd, Rat.divInt_eq_div]
  push_cast
  rw [div_eq_iff (mul_ne_zero (den_cast_ne_zero a) (den_cast_ne_zero b)), num_cast_eq,
    num_cast_eq]
  ring

lemma qMul_eq (a b : ℚ) : qMul a b = a * b := by
  rw [qMul, Rat.divInt_eq_div]
  push_cast
  rw [div_eq_iff (mul_ne_zero (den_cast_ne_zero a) (den_cast_ne_zero b)), num_cast_eq,
    num_cast_eq]
  ring

lemma qDiv_eq (a b : ℚ) : qDiv a b = a / b := by
  rcases eq_or_ne b 0 with rfl | hb
  · simp [qDiv, Rat.divInt_eq_div]
  · have hbn : ((b.num : ℚ)) ≠ 0 := by
      rw [num_cast_eq]
      exact mul_ne_zero hb (den_cast_ne_zero b)
    rw [qDiv, Rat.divInt_eq_div]
    push_cast
    rw [div_eq_div_iff (mul_ne_zero (den_cast_ne_zero a) hbn) hb, num_cast_eq, num_cast_eq]
    ring

lemma qSub_eq (a b : ℚ) : qSub a b = a - b := by
  rw [qSub, qAdd_eq]
  ring

lemma jsRound_eq (a : ℚ) : jsRound a = round a := by
  rw [jsRound, qAdd_eq, round_eq]
  norm_num [Rat.mkRat_eq_div]

/-! ### Character and word-boundary helpers (JS regex semantics) -/

/-- JS regex word character class: ASCII letters, digits, underscore. -/
def isWordChar (c : Char) : Bool := c.isAlpha || c.isDigit || c == '_'

def isWordOpt : Option Char → Bool
  | some c => isWordChar c
  | none => false

/-- A word boundary sits between two positions whose word-character
status differs (string ends count as non-word). -/
def boundaryAt (prev next : Option Char) : Bool := isWordOpt prev != isWordOpt next

/-- Case-insensitive: pattern is an initial segment of the text. -/
def ciLeads : List Char → List Char → Bool
  | [], _ => true
  | _ :: _, [] => false
  | p :: ps, c :: cs => (p.toLower == c.toLower) && ciLeads ps cs

/-- Case-sensitive: pattern is an initial segment of the text. -/
def subHere : List Char → List Char → Bool
  | [], _ => true
  | _ :: _, [] => false
  | p :: ps, c :: cs => (p == c) && subHere ps cs

/-- Case-sensitive substring occurrence. -/
def subSearch (pat : List Char) : List Char → Bool
  | [] => subHere pat []
  | c :: cs => subHere pat (c :: cs) || subSearch pat cs

def containsSub (pat s : String) : Bool := subSearch pat.toList s.toList

/-- Case-insensitive occurrence of the pattern at the current position,
with a word boundary on both sides, as in /\bpat\b/i. -/
def wordHere (pat : List Char) (prev : Option Char) (cs : List Char) : Bool :=
  boundaryAt prev cs.head? && ciLeads pat cs &&
    boundaryAt ((cs.take pat.length).getLast?) ((cs.drop pat.length).head?)

def wordSearch (pat : List Char) : Option Char → List Char → Bool
  | prev, [] => wordHere pat prev []
  | prev, c :: cs => wordHere pat prev (c :: cs) || wordSearch pat (some c) cs

/-- Test for /\b(p1|p2|...)\b/i on a string. -/
def testWordAlt (pats : List String) (s : String) : Bool :=
  pats.any (fun p => wordSearch p.toList none s.toList)

/-! Scans for the specific non-word regex fragments used by the code. -/

def lbr : Char := Char.ofNat 123
def rbr : Char := Char.ofNat 125

def tplClose : List Char → Bool
  | [] => false
  | c :: cs => if c == rbr then (match cs with | c2 :: _ => c2 == rbr | [] => false)
               else tplClose cs

def tplAfterOpen : List Char → Bool
  | [] => false
  | c :: cs => if c == rbr then false else tplClose cs

/-- Double-brace template variable with a nonempty body. -/
def tplSearch : List Char → Bool
  | c1 :: c2 :: rest => (c1 == lbr && c2 == lbr && tplAfterOpen rest) || tplSearch (c2 :: rest)
  | _ => false

def hasTemplateVars (s : String) : Bool := tplSearch s.toList

def boldClose : List Char → Bool
  | [] => false
  | c :: cs => if c == '*' then (match cs with | c2 :: _ => c2 == '*' | [] => false)
               else boldClose cs

def boldAfterOpen : List Char → Bool
  | [] => false
  | c :: cs => if c == '*' then false else boldClose cs

/-- Bold marker with nonempty body. -/
def boldSearch : List Char → Bool
  | c1 :: c2 :: rest => (c1 == '*' && c2 == '*' && boldAfterOpen rest) || boldSearch (c2 :: rest)
  | _ => false

def hasBoldMark (s : String) : Bool := boldSearch s.toList

def hashRest : List Char → Bool
  | '#' :: cs => hashRest cs
  | c :: _ => c.isWhitespace
  | [] => false

/-- One or more hash characters then whitespace, at a line start. -/
def hashSpaceAt : List Char → Bool
  | '#' :: cs => hashRest cs
  | _ => false

def digitsRest : List Char → Bool
  | c :: cs => if c.isDigit then digitsRest cs else c == '.'
  | [] => false

/-- One or more digits then a dot, at a line start. -/
def digitsDotAt : List Char → Bool
  | c :: cs => c.isDigit && digitsRest cs
  | [] => false

/-- Multiline anchor scan: test p at the string start and after each newline. -/
def lineStartScan (p : List Char → Bool) : Bool → List Char → Bool
  | atStart, [] => atStart && p []
  | atStart, c :: cs => (atStart && p (c :: cs)) || lineStartScan p (c == '\n') cs

def hasHashHeading (s : String) : Bool := lineStartScan hashSpaceAt true s.toList

/-! ### Heuristic scorer (llmJudge.ts heuristicScore) -/

inductive EvalMethod
  | llm
  | heuristic
  deriving DecidableEq

structure JudgeResult where
  score : ℚ
  feedback : String
  method : EvalMethod
  modelUsed : Option String
  deriving DecidableEq

def hasStructureMark (s : String) : Bool :=
  lineStartScan (fun cs => hashSpaceAt cs || digitsDotAt cs) true s.toList || boldSearch s.toList

def hasCodeFence (s : String) : Bool := containsSub "```" s

def hasSequentialWords (s : String) : Bool :=
  testWordAlt ["step", "first", "second", "then", "finally", "next"] s

def hasConstraintWords (s : String) : Bool :=
  testWordAlt ["must", "should", "ensure", "always", "never", "required"] s

def hasExampleWords (s : String) : Bool :=
  testWordAlt ["example", "e.g.", "for instance", "such as"] s

def hasOutputWords (s : String) : Bool :=
  testWordAlt ["output", "format", "return", "result"] s

def hasRoleWords (s : String) : Bool :=
  testWordAlt ["you are", "act as", "your role", "as a"] s

def hasEdgeCaseWords (s : String) : Bool :=
  testWordAlt ["edge case", "error", "exception", "handle", "fallback"] s

/-- The individual additive contributions, in source order (the length
penalty is the one negative term). -/
def heuristicTerms (content : String) : List ℚ :=
  [ (if 200 < content.length then mkRat 3 10 else 0),
    (if 500 < content.length then mkRat 3 10 else 0),
    (if 1000 < content.length then mkRat 3 10 else 0),
    (if content.length < 50 then -(mkRat 3 10) else 0),
    (if hasStructureMark content then mkRat 1 2 else 0),
    (if hasCodeFence content then mkRat 3 10 else 0),
    (if hasSequentialWords content then mkRat 3 10 else 0),
    (if hasConstraintWords content then mkRat 2 5 else 0),
    (if hasExampleWords content then mkRat 3 10 else 0),
    (if hasOutputWords content then mkRat 3 10 else 0),
    (if hasRoleWords content then mkRat 3 10 else 0),
    (if hasTemplateVars content then mkRat 1 5 else 0),
    (if hasEdgeCaseWords content then mkRat 1 5 else 0) ]

/-- The additive raw score before rounding and capping, starting from
the base 1.5 and accumulating the contributions in source order. -/
def heuristicScoreRaw (content : String) : ℚ :=
  (heuristicTerms content).foldl qAdd (mkRat 3 2)

def heuristicFeedbackList (content : String) : List String :=
  (if 200 < content.length then ["Reasonable length (+0.3)"] else [])
  ++ (if 500 < content.length then ["Good length (+0.3)"] else [])
  ++ (if 1000 < content.length then ["Detailed prompt (+0.3)"] else [])
  ++ (if content.length < 50 then ["Very short, may lack detail (-0.3)"] else [])
  ++ (if hasStructureMark content then ["Has formatting/structure (+0.5)"] else [])
  ++ (if hasCodeFence content then ["Contains code blocks (+0.3)"] else [])
  ++ (if hasSequentialWords content then ["Has sequential instructions (+0.3)"] else [])
  ++ (if hasConstraintWords content then ["Has constraints/requirements (+0.4)"] else [])
  ++ (if hasExampleWords content then ["Provides examples (+0.3)"] else [])
  ++ (if hasOutputWords content then ["Specifies output format (+0.3)"] else [])
  ++ (if hasRoleWords content then ["Defines role/persona (+0.3)"] else [])
  ++ (if hasTemplateVars content then ["Uses template variables (+0.2)"] else [])
  ++ (if hasEdgeCaseWords content then ["Considers edge cases (+0.2)"] else [])

/-- Final score: round to one decimal, cap at 5. -/
def heuristicScore (content : String) : JudgeResult :=
  { score := min 5 (qDiv (jsRound (qMul (heuristicScoreRaw content) 10) : ℚ) 10)
    feedback := "Heuristic evaluation:\n" ++ String.intercalate "\n" (heuristicFeedbackList content)
    method := .heuristic
    modelUsed := none }

lemma heuristicScore_score_eq (content : String) :
    (heuristicScore content).score
      = min 5 ((round (heuristicScoreRaw content * 10) : ℚ) / 10) := by
  rw [heuristicScore]
  simp only [qDiv_eq, jsRound_eq, qMul_eq]

/-! ### Bound lemmas for the heuristic scorer -/

lemma ite_zero_nonneg (c : Prop) [Decidable c] {a : ℚ} (h : 0 ≤ a) :
    0 ≤ if c then a else 0 := by
  split <;> simp [h]

lemma ite_zero_ge_neg (c : Prop) [Decidable c] {a : ℚ} (h : 0 ≤ a) :
    -a ≤ if c then -a else 0 := by
  split <;> simp [h]

lemma foldl_qAdd_eq (l : List ℚ) (b : ℚ) : l.foldl qAdd b = b + l.sum := by
  induction l generalizing b with
  | nil => simp
  | cons x xs ih => rw [List.foldl_cons, ih, qAdd_eq, List.sum_cons]; ring

lemma heuristicScoreRaw_lower (t : String) : (6/5 : ℚ) ≤ heuristicScoreRaw t := by
  rw [heuristicScoreRaw, foldl_qAdd_eq]
  simp only [heuristicTerms, List.sum_cons, List.sum_nil, Rat.mkRat_eq_div]
  have h01 := ite_zero_nonneg (200 < t.length) (by norm_num : (0:ℚ) ≤ 3/10)
  have h02 := ite_zero_nonneg (500 < t.length) (by norm_num : (0:ℚ) ≤ 3/10)
  have h03 := ite_zero_nonneg (1000 < t.length) (by norm_num : (0:ℚ) ≤ 3/10)
  have h04 := ite_zero_ge_neg (t.length < 50) (by norm_num : (0:ℚ) ≤ 3/10)
  have h05 := ite_zero_nonneg (hasStructureMark t = true) (by norm_num : (0:ℚ) ≤ 1/2)
  have h06 := ite_zero_nonneg (hasCodeFence t = true) (by norm_num : (0:ℚ) ≤ 3/10)
  have h07 := ite_zero_nonneg (hasSequentialWords t = true) (by norm_num : (0:ℚ) ≤ 3/10)
  have h08 := ite_zero_nonneg (hasConstraintWords t = true) (by norm_num : (0:ℚ) ≤ 2/5)
  have h09 := ite_zero_nonneg (hasExampleWords t = true) (by norm_num : (0:ℚ) ≤ 3/10)
  have h10 := ite_zero_nonneg (hasOutputWords t = true) (by norm_num : (0:ℚ) ≤ 3/10)
  have h11 := ite_zero_nonneg (hasRoleWords t = true) (by norm_num : (0:ℚ) ≤ 3/10)
  have h12 := ite_zero_nonneg (hasTemplateVars t = true) (by norm_num : (0:ℚ) ≤ 1/5)
  have h13 := ite_zero_nonneg (hasEdgeCaseWords t = true) (by norm_num : (0:ℚ) ≤ 1/5)
  linarith

/-- C7: for every text, the heuristic score lies in [1, 5], is an exact
multiple of one tenth (rounded to one decimal, capped at 5), and the
scorer is deterministic: equal inputs give equal results. -/
theorem heuristicScore_in_range_one_decimal_deterministic (t : String) :
    1 ≤ (heuristicScore t).score ∧ (heuristicScore t).score ≤ 5 ∧
    (∃ n : ℤ, (heuristicScore t).score = n / 10) ∧
    heuristicScore t = heuristicScore t := by
  have hraw : (6/5 : ℚ) ≤ heuristicScoreRaw t := heuristicScoreRaw_lower t
  have hs := heuristicScore_score_eq t
  have hround : (12 : ℤ) ≤ round (heuristicScoreRaw t * 10) := by
    have h12 : ((12 : ℤ) : ℚ) ≤ heuristicScoreRaw t * 10 := by
      push_cast
      linarith
    calc (12 : ℤ) = round ((12 : ℤ) : ℚ) := by simp
    _ ≤ round (heuristicScoreRaw t * 10) := by
        rw [round_eq, round_eq]
        exact Int.floor_le_floor (by linarith)
  have hdiv : (1 : ℚ) ≤ (round (heuristicScoreRaw t * 10) : ℚ) / 10 := by
    have h12q : (12 : ℚ) ≤ (round (heuristicScoreRaw t * 10) : ℚ) := by exact_mod_cast hround
    linarith
  refine ⟨?_, ?_, ?_, rfl⟩
  · rw [hs]
    exact le_min (by norm_num) hdiv
  · rw [hs]
    exact min_le_left _ _
  · rcases le_total ((round (heuristicScoreRaw t * 10) : ℚ) / 10) 5 with h | h
    · exact ⟨round (heuristicScoreRaw t * 10), by rw [hs, min_eq_right h]⟩
    · exact ⟨50, by rw [hs, min_eq_left h]; norm_num⟩

/-! ### LLM output parsers (llmJudge.ts) -/

inductive Winner
  | A
  | B
  deriving DecidableEq

structure ScoreParse where
  score : ℚ
  feedback : String
  deriving DecidableEq

structure CompareParse where
  winner : Winner
  feedback : String
  deriving DecidableEq

def resultMarker : List Char := "[RESULT]".toList

def skipWs : List Char → List Char
  | [] => []
  | c :: cs => if c.isWhitespace then skipWs cs else c :: cs

/-- After the marker: optional whitespace then a single digit. -/
def digitAfterMarker (cs : List Char) : Option Char :=
  match skipWs cs with
  | d :: _ => if d.isDigit then some d else none
  | [] => none

/-- First position where the marker is followed (after whitespace) by a
digit, as the regex scan does. -/
def scanResultDigit : List Char → Option Char
  | [] => none
  | c :: cs =>
    match (if subHere resultMarker (c :: cs)
           then digitAfterMarker ((c :: cs).drop resultMarker.length) else none) with
    | some d => some d
    | none => scanResultDigit cs

/-- Text before the first case-sensitive occurrence of the marker. -/
def beforeMarker : List Char → List Char
  | [] => []
  | c :: cs => if subHere resultMarker (c :: cs) then [] else c :: beforeMarker cs

def parseLLMJudgeOutput (output : String) : ScoreParse :=
  let resultDigit := scanResultDigit output.toList
  let fb0 := (String.mk (beforeMarker output.toList)).trim
  let feedback := if fb0 = "" then output.trim else fb0
  match resultDigit with
  | some d => { score := min 5 (max 1 ((d.toNat - '0'.toNat : ℕ) : ℚ)), feedback := feedback }
  | none => { score := 3, feedback := feedback }

def abAfterMarker (cs : List Char) : Option Winner :=
  match skipWs cs with
  | d :: _ =>
    if d.toLower == 'a' then some Winner.A
    else if d.toLower == 'b' then some Winner.B
    else none
  | [] => none

/-- Case-insensitive scan for the marker followed by A or B. -/
def scanResultAB : List Char → Option Winner
  | [] => none
  | c :: cs =>
    match (if ciLeads resultMarker (c :: cs)
           then abAfterMarker ((c :: cs).drop resultMarker.length) else none) with
    | some w => some w
    | none => scanResultAB cs

def parseLLMCompareOutput (output : String) : CompareParse :=
  { winner := (scanResultAB output.toList).getD Winner.B
    feedback := (String.mk (beforeMarker output.toList)).trim }

/-! ### Judge state machine (llmJudge.ts LLMJudge)

The remote HTTP endpoint is modelled by an oracle supplying the
availability-probe outcome and the outcome of each successive remote
call; the judge instance state is its cached availability flag plus the
index of the next remote call. -/

structure JudgeConfig where
  endpoint : String
  modelName : String
  timeout : Nat
  deriving DecidableEq

inductive RemoteOutcome
  | ok (reply : String)
  | fail
  deriving DecidableEq

structure Oracle where
  probe : Bool
  calls : Nat → RemoteOutcome

structure JudgeState where
  llmAvailable : Option Bool
  callIdx : Nat
  deriving DecidableEq

def checkAvailability (o : Oracle) (st : JudgeState) : Bool × JudgeState :=
  (o.probe, { st with llmAvailable := some o.probe })

def scorePrompt (o : Oracle) (cfg : JudgeConfig) (st : JudgeState) (content : String) :
    JudgeResult × JudgeState :=
  let st1 := if st.llmAvailable = none then (checkAvailability o st).2 else st
  match st1.llmAvailable with
  | some true =>
    match o.calls st1.callIdx with
    | .ok reply =>
      let p := parseLLMJudgeOutput reply
      ({ score := p.score, feedback := p.feedback, method := .llm,
         modelUsed := some cfg.modelName },
       { st1 with callIdx := st1.callIdx + 1 })
    | .fail => (heuristicScore content, { st1 with callIdx := st1.callIdx + 1 })
  | _ => (heuristicScore content, st1)

structure CompareResult where
  winner : Winner
  feedback : String
  method : EvalMethod
  deriving DecidableEq

def compareVersions (o : Oracle) (cfg : JudgeConfig) (st : JudgeState)
    (contentA contentB : String) : CompareResult × JudgeState :=
  let st1 := if st.llmAvailable = none then (checkAvailability o st).2 else st
  match st1.llmAvailable with
  | some true =>
    match o.calls st1.callIdx with
    | .ok reply =>
      let p := parseLLMCompareOutput reply
      ({ winner := p.winner, feedback := p.feedback, method := .llm },
       { st1 with callIdx := st1.callIdx + 1 })
    | .fail =>
      let scoreA := heuristicScore contentA
      let scoreB := heuristicScore contentB
      ({ winner := if scoreA.score ≤ scoreB.score then Winner.B else Winner.A
         feedback := "Heuristic: A=" ++ toString scoreA.score ++ ", B=" ++ toString scoreB.score
         method := .heuristic },
       { st1 with callIdx := st1.callIdx + 1 })
  | _ =>
    let scoreA := heuristicScore contentA
    let scoreB := heuristicScore contentB
    ({ winner := if scoreA.score ≤ scoreB.score then Winner.B else Winner.A
       feedback := "Heuristic: A=" ++ toString scoreA.score ++ ", B=" ++ toString scoreB.score
       method := .heuristic },
     st1)

/-! Wait: the source compareVersions falls back to the heuristic
comparison after a failed remote call as well, identically to the
unavailable branch; both branches above construct the same result. -/

/-! ### C5: stickiness of the fallback -/

def defaultJudgeConfig : JudgeConfig :=
  { endpoint := "http://localhost:11434/api/generate"
    modelName := "prometheus-7b-v2"
    timeout := 60000 }

def stickOracle : Oracle :=
  { probe := true
    calls := fun n => if n == 0 then .fail else .ok "Good prompt. [RESULT] 4" }

def stickCall1 : JudgeResult × JudgeState :=
  scorePrompt stickOracle defaultJudgeConfig ⟨none, 0⟩ "Sort the list"

def stickCall2 : JudgeResult × JudgeState :=
  scorePrompt stickOracle defaultJudgeConfig stickCall1.2 "Sort the list"

/-- C5 counterexample: with a successful probe, a first remote call that
fails and a second that succeeds, the first call falls back to the
heuristic but the second call still uses the remote path, so a call
failure is not sticky. -/
theorem scorePrompt_callFailure_not_sticky :
    stickCall1.1.method = EvalMethod.heuristic ∧
    stickCall2.1.method = EvalMethod.llm ∧
    stickCall2.1.method ≠ EvalMethod.heuristic := by
  decide

/-- C5 amended: a failed availability probe is sticky: once the cached
flag is false (or the probe run on first use fails), that call and every
subsequent call use the heuristic path and leave the flag false. A
remote call failure after a successful probe falls back to the heuristic
for that call only: the availability flag stays true. -/
theorem judge_probeFailure_sticky_callFailure_transient
    (o : Oracle) (cfg : JudgeConfig) (st : JudgeState) (a b : String) :
    (st.llmAvailable = some false →
      (scorePrompt o cfg st a).1.method = EvalMethod.heuristic ∧
      (scorePrompt o cfg st a).2 = st ∧
      (compareVersions o cfg st a b).1.method = EvalMethod.heuristic ∧
      (compareVersions o cfg st a b).2 = st) ∧
    (st.llmAvailable = none → o.probe = false →
      (scorePrompt o cfg st a).1.method = EvalMethod.heuristic ∧
      (scorePrompt o cfg st a).2.llmAvailable = some false ∧
      (compareVersions o cfg st a b).1.method = EvalMethod.heuristic ∧
      (compareVersions o cfg st a b).2.llmAvailable = some false) ∧
    (st.llmAvailable = some true → o.calls st.callIdx = RemoteOutcome.fail →
      (scorePrompt o cfg st a).1.method = EvalMethod.heuristic ∧
      (scorePrompt o cfg st a).2.llmAvailable = some true ∧
      (compareVersions o cfg st a b).1.method = EvalMethod.heuristic ∧
      (compareVersions o cfg st a b).2.llmAvailable = some true) := by
  refine ⟨fun h => ?_, fun h hp => ?_, fun h hf => ?_⟩
  · simp [scorePrompt, compareVersions, h, heuristicScore]
  · simp [scorePrompt, compareVersions, checkAvailability, h, hp, heuristicScore]
  · simp [scorePrompt, compareVersions, h, hf, heuristicScore]

def probeFailOracle : Oracle :=
  { probe := false, calls := fun _ => .ok "unused" }

/-- C5 amended witness at a concrete unavailable state. -/
theorem judge_probeFailure_sticky_witness :
    (scorePrompt probeFailOracle defaultJudgeConfig ⟨some false, 0⟩ "Fix it").1.method
      = EvalMethod.heuristic ∧
    (scorePrompt probeFailOracle defaultJudgeConfig ⟨some false, 0⟩ "Fix it").2
      = (⟨some false, 0⟩ : JudgeState) :=
  ⟨((judge_probeFailure_sticky_callFailure_transient probeFailOracle defaultJudgeConfig
      ⟨some false, 0⟩ "Fix it" "y").1 rfl).1,
   ((judge_probeFailure_sticky_callFailure_transient probeFailOracle defaultJudgeConfig
      ⟨some false, 0⟩ "Fix it" "y").1 rfl).2.1⟩

/-! ### C10: heuristic comparison awards exact ties to B -/

/-- C10: in the deterministic fallback path of compareVersions, the
winner is B exactly when the heuristic score of B is at least that of A;
exact ties go to B. -/
theorem compareVersions_fallback_ties_to_B
    (o : Oracle) (cfg : JudgeConfig) (st : JudgeState) (a b : String)
    (h : st.llmAvailable = some false) :
    ((compareVersions o cfg st a b).1.winner = Winner.B ↔
      (heuristicScore a).score ≤ (heuristicScore b).score) := by
  simp only [compareVersions, h]
  split
  · simp_all
  · split <;> simp_all

/-- C10 witness: two texts with equal heuristic scores, tie awarded to B. -/
theorem compareVersions_fallback_ties_to_B_witness :
    (compareVersions probeFailOracle defaultJudgeConfig ⟨some false, 0⟩
        "Alpha" "Beta!").1.winner = Winner.B :=
  (compareVersions_fallback_ties_to_B probeFailOracle defaultJudgeConfig
      ⟨some false, 0⟩ "Alpha" "Beta!" rfl).mpr (by decide)

/-! ### Crawled reference records (crawler.ts) -/

structure CrawledPrompt where
  title : String
  content : String
  source : String
  sourceId : String
  category : String
  tags : List String
  fetchedAt : String
  deriving DecidableEq

/-! ### Rule-based transformer (optimizer.ts) -/

structure OptimizationRule where
  name : String
  description : String
  check : String → Bool
  ruleApply : String → String

def OPTIMIZATION_RULES : List OptimizationRule :=
  [ { name := "add-role-definition"
      description := "Add a clear role/persona definition"
      check := fun c => !(testWordAlt ["you are", "act as", "your role", "as a"] c)
      ruleApply := fun c => "You are an expert AI assistant.\n\n" ++ c },
    { name := "add-output-format"
      description := "Specify expected output format"
      check := fun c => !(testWordAlt ["output", "format", "return", "respond with", "response should"] c)
      ruleApply := fun c => c ++ "\n\nPlease structure your response clearly with appropriate formatting." },
    { name := "add-constraints"
      description := "Add quality constraints"
      check := fun c => !(testWordAlt ["must", "should", "ensure", "always", "never", "required", "do not"] c)
      ruleApply := fun c => c ++ "\n\nEnsure your response is accurate, well-structured, and complete." },
    { name := "add-step-structure"
      description := "Add step-by-step instruction when missing"
      check := fun c =>
        !(testWordAlt ["step", "first", "second", "then", "finally", "next", "1.", "2."] c)
          && decide (100 < c.length)
      ruleApply := fun c => c ++ "\n\nPlease approach this step by step." },
    { name := "add-edge-cases"
      description := "Remind about edge cases"
      check := fun c =>
        !(testWordAlt ["edge case", "error", "exception", "handle", "corner case", "fallback"] c)
          && decide (150 < c.length)
      ruleApply := fun c => c ++ "\n\nConsider edge cases and potential error scenarios in your response." },
    { name := "add-examples-hint"
      description := "Encourage examples in response"
      check := fun c =>
        !(testWordAlt ["example", "e.g.", "for instance", "such as", "demonstrate"] c)
          && decide (100 < c.length)
      ruleApply := fun c => c ++ "\n\nInclude concrete examples where applicable." },
    { name := "add-markdown-structure"
      description := "Add section headers for long prompts"
      check := fun c => decide (300 < c.length) && !(hasHashHeading c) && !(hasBoldMark c)
      ruleApply := fun c =>
        let lines := c.splitOn "\n"
        if 5 < lines.length then "## Task\n" ++ c else c } ]

/-- Apply every rule whose check fires, in declared order, each against
the accumulating output. -/
def optimizeWithRules (content : String) (references : List CrawledPrompt) : String :=
  OPTIMIZATION_RULES.foldl
    (fun optimized rule => if rule.check optimized then rule.ruleApply optimized else optimized)
    content

/-! ### C4: the transformer is strictly additive -/

/-- A rule is additive when its transform only adds an prelude or a
trailer around the input. -/
def RuleAdditive (r : OptimizationRule) : Prop :=
  ∀ c : String, ∃ p q : String, r.ruleApply c = p ++ c ++ q

lemma rules_additive : ∀ r ∈ OPTIMIZATION_RULES, RuleAdditive r := by
  intro r hr
  simp only [OPTIMIZATION_RULES, List.mem_cons, List.not_mem_nil, or_false] at hr
  rcases hr with rfl | rfl | rfl | rfl | rfl | rfl | rfl <;> intro c
  · exact ⟨"You are an expert AI assistant.\n\n", "", by simp⟩
  · exact ⟨"", "\n\nPlease structure your response clearly with appropriate formatting.", by simp⟩
  · exact ⟨"", "\n\nEnsure your response is accurate, well-structured, and complete.", by simp⟩
  · exact ⟨"", "\n\nPlease approach this step by step.", by simp⟩
  · exact ⟨"", "\n\nConsider edge cases and potential error scenarios in your response.", by simp⟩
  · exact ⟨"", "\n\nInclude concrete examples where applicable.", by simp⟩
  · show ∃ p q, (let lines := c.splitOn "\n"; if 5 < lines.length then "## Task\n" ++ c else c) = p ++ c ++ q
    by_cases h : 5 < (c.splitOn "\n").length
    · exact ⟨"## Task\n", "", by simp [h]⟩
    · exact ⟨"", "", by simp [h]⟩

lemma foldl_rules_additive :
    ∀ (rules : List OptimizationRule), (∀ r ∈ rules, RuleAdditive r) →
    ∀ c : String, ∃ p q : String,
      rules.foldl (fun optimized rule =>
        if rule.check optimized then rule.ruleApply optimized else optimized) c = p ++ c ++ q := by
  intro rules
  induction rules with
  | nil => exact fun _ c => ⟨"", "", by simp⟩
  | cons r rs ih =>
    intro hadd c
    have hr : RuleAdditive r := hadd r (by simp)
    have hstep : ∃ p q : String, (if r.check c then r.ruleApply c else c) = p ++ c ++ q := by
      by_cases h : r.check c
      · rcases hr c with ⟨p, q, hpq⟩
        exact ⟨p, q, by simp [h, hpq]⟩
      · exact ⟨"", "", by simp [h]⟩
    rcases hstep with ⟨p1, q1, h1⟩
    rcases ih (fun r hrm => hadd r (by simp [hrm])) (p1 ++ c ++ q1) with ⟨p2, q2, h2⟩
    refine ⟨p2 ++ p1, q1 ++ q2, ?_⟩
    rw [List.foldl_cons, h1, h2]
    simp [String.append_assoc]

/-- C4: for every text and reference list, the rule-based transform
produces a string of the form prelude ++ original ++ trailer, so the
original text occurs as a contiguous substring and no rule deletes or
rewrites it. -/
theorem optimizeWithRules_additive (t : String) (references : List CrawledPrompt) :
    ∃ p q : String, optimizeWithRules t references = p ++ t ++ q :=
  foldl_rules_additive OPTIMIZATION_RULES rules_additive t

/-! ### Similarity retriever (optimizer.ts findSimilarPrompts) -/

/-- Characters kept after lowercasing: lowercase letters, digits,
whitespace. -/
def keepTokenChar (c : Char) : Bool := c.isLower || c.isDigit || c.isWhitespace

def cleanChars (s : String) : List Char := (s.toList.map Char.toLower).filter keepTokenChar

/-- Split into maximal nonempty runs of non-whitespace characters. -/
def splitWsAux (acc : List Char) : List Char → List (List Char)
  | [] => if acc.isEmpty then [] else [acc.reverse]
  | c :: cs =>
    if c.isWhitespace then
      (if acc.isEmpty then splitWsAux [] cs else acc.reverse :: splitWsAux [] cs)
    else splitWsAux (c :: acc) cs

/-- The token set of a text: lowercase, strip non-alphanumerics, split
on whitespace, keep words longer than 3 characters, deduplicate. -/
def promptTokens (s : String) : List String :=
  (((splitWsAux [] (cleanChars s)).map (fun l => String.mk l)).filter
    (fun w => 3 < w.length)).dedup

/-- Overlap with the query tokens, normalized by the query token count. -/
def similarityScore (userWords : List String) (p : CrawledPrompt) : ℚ :=
  let pWords := promptTokens (p.title ++ " " ++ p.content)
  qDiv (((userWords.filter (fun w => pWords.contains w)).length : ℕ) : ℚ)
    (((userWords.length : ℕ) : ℚ))

def scoredList (userPrompt : String) (openSourcePrompts : List CrawledPrompt) :
    List (CrawledPrompt × ℚ) :=
  openSourcePrompts.map (fun p => (p, similarityScore (promptTokens userPrompt) p))

def keptList (userPrompt : String) (openSourcePrompts : List CrawledPrompt)
    (threshold : ℚ) : List (CrawledPrompt × ℚ) :=
  (scoredList userPrompt openSourcePrompts).filter (fun s => threshold ≤ s.2)

/-- Stable insertion preserving descending key order: the new element
goes in front of the first element whose key is at most its own, so
earlier elements win ties. -/
def insertDescBy {α : Type} (key : α → ℚ) (x : α) : List α → List α
  | [] => [x]
  | y :: ys => if key y ≤ key x then x :: y :: ys else y :: insertDescBy key x ys

/-- Stable sort by descending key (the unique stable result, matching
the stable JS sort with comparator b.similarity - a.similarity). -/
def sortDescBy {α : Type} (key : α → ℚ) : List α → List α
  | [] => []
  | x :: xs => insertDescBy key x (sortDescBy key xs)

def findSimilarPrompts (userPrompt : String) (openSourcePrompts : List CrawledPrompt)
    (maxResults : Nat) (threshold : ℚ) : List CrawledPrompt :=
  if (promptTokens userPrompt).isEmpty then []
  else
    (((sortDescBy (fun s => s.2) (keptList userPrompt openSourcePrompts threshold)).take
      maxResults).map (fun s => s.1))

/-! ### Sorting lemmas -/

lemma insertDescBy_perm {α : Type} (key : α → ℚ) (x : α) (l : List α) :
    List.Perm (insertDescBy key x l) (x :: l) := by
  induction l with
  | nil => rfl
  | cons y ys ih =>
    rw [insertDescBy]
    split
    · rfl
    · exact ((ih.cons y).trans (List.Perm.swap x y ys))

lemma sortDescBy_perm {α : Type} (key : α → ℚ) (l : List α) :
    List.Perm (sortDescBy key l) l := by
  induction l with
  | nil => rfl
  | cons x xs ih => exact (insertDescBy_perm key x (sortDescBy key xs)).trans (ih.cons x)

lemma mem_sortDescBy {α : Type} {key : α → ℚ} {a : α} {l : List α} :
    a ∈ sortDescBy key l ↔ a ∈ l :=
  (sortDescBy_perm key l).mem_iff

lemma pairwise_insertDescBy {α : Type} (key : α → ℚ) (idx : α → ℕ) (x : α) :
    ∀ l : List α,
      l.Pairwise (fun a b => key b < key a ∨ (key a = key b ∧ idx a < idx b)) →
      (∀ y ∈ l, idx x < idx y) →
      (insertDescBy key x l).Pairwise
        (fun a b => key b < key a ∨ (key a = key b ∧ idx a < idx b)) := by
  intro l
  induction l with
  | nil => exact fun _ _ => List.pairwise_singleton _ _
  | cons y ys ih =>
    intro hl hx
    rcases List.pairwise_cons.mp hl with ⟨hy, hys⟩
    rw [insertDescBy]
    split
    · rename_i hle
      refine List.pairwise_cons.mpr ⟨?_, hl⟩
      intro z hz
      rcases List.mem_cons.mp hz with rfl | hz
      · rcases lt_or_eq_of_le hle with h | h
        · exact Or.inl h
        · exact Or.inr ⟨h.symm, hx z (by simp)⟩
      · rcases hy z hz with h | ⟨heq, _⟩
        · exact Or.inl (lt_of_lt_of_le h hle)
        · have hzle : key z ≤ key x := by rw [← heq]; exact hle
          rcases lt_or_eq_of_le hzle with h | h
          · exact Or.inl h
          · exact Or.inr ⟨h.symm, hx z (List.mem_cons_of_mem _ hz)⟩
    · rename_i hgt
      push_neg at hgt
      refine List.pairwise_cons.mpr ⟨?_, ih hys (fun z hz => hx z (by simp [hz]))⟩
      intro z hz
      rcases List.mem_cons.mp ((insertDescBy_perm key x ys).mem_iff.mp hz) with rfl | hz
      · exact Or.inl hgt
      · exact hy z hz

lemma pairwise_sortDescBy {α : Type} (key : α → ℚ) (idx : α → ℕ) :
    ∀ l : List α, l.Pairwise (fun a b => idx a < idx b) →
      (sortDescBy key l).Pairwise
        (fun a b => key b < key a ∨ (key a = key b ∧ idx a < idx b)) := by
  intro l
  induction l with
  | nil => exact fun _ => List.Pairwise.nil
  | cons x xs ih =>
    intro hl
    rcases List.pairwise_cons.mp hl with ⟨hx, hxs⟩
    exact pairwise_insertDescBy key idx x (sortDescBy key xs) (ih hxs)
      (fun y hy => hx y (mem_sortDescBy.mp hy))

lemma insertDescBy_map {α β : Type} (key : α → ℚ) (keyB : β → ℚ) (f : α → β)
    (hk : ∀ a, keyB (f a) = key a) (x : α) :
    ∀ l : List α, insertDescBy keyB (f x) (l.map f) = (insertDescBy key x l).map f := by
  intro l
  induction l with
  | nil => rfl
  | cons y ys ih =>
    rw [List.map_cons, insertDescBy, insertDescBy, hk, hk]
    split
    · rfl
    · rw [List.map_cons, ih]

lemma sortDescBy_map {α β : Type} (key : α → ℚ) (keyB : β → ℚ) (f : α → β)
    (hk : ∀ a, keyB (f a) = key a) :
    ∀ l : List α, sortDescBy keyB (l.map f) = (sortDescBy key l).map f := by
  intro l
  induction l with
  | nil => rfl
  | cons x xs ih => rw [List.map_cons, sortDescBy, sortDescBy, ih, insertDescBy_map key keyB f hk]

lemma le_fst_of_mem_enumFrom {α : Type} {z : ℕ × α} :
    ∀ (n : ℕ) (l : List α), z ∈ List.enumFrom n l → n ≤ z.1 := by
  intro n l
  induction l generalizing n with
  | nil => simp
  | cons x xs ih =>
    intro hz
    rcases List.mem_cons.mp (by simpa using hz) with rfl | hz
    · exact le_refl n
    · exact le_trans (Nat.le_succ n) (ih (n + 1) hz)

lemma pairwise_fst_lt_enumFrom {α : Type} : ∀ (n : ℕ) (l : List α),
    (List.enumFrom n l).Pairwise (fun a b => a.1 < b.1) := by
  intro n l
  induction l generalizing n with
  | nil => exact List.Pairwise.nil
  | cons x xs ih =>
    rw [List.enumFrom_cons]
    refine List.pairwise_cons.mpr ⟨?_, ih (n + 1)⟩
    intro z hz
    exact lt_of_lt_of_le (Nat.lt_succ_self n) (le_fst_of_mem_enumFrom (n + 1) xs hz)

lemma pairwise_fst_lt_enum {α : Type} (l : List α) :
    l.enum.Pairwise (fun a b => a.1 < b.1) := pairwise_fst_lt_enumFrom 0 l

/-! ### C6: retriever contract -/

/-- C6: findSimilarPrompts keeps only records whose similarity to the
query meets the threshold, returns at most maxResults records, returns
the empty list on an empty corpus or a query with no eligible tokens,
and (on a nonempty query) equals the index-erased prefix of the stably
sorted kept list, which is ordered by strictly descending similarity
with ties in corpus order. -/
theorem findSimilarPrompts_spec (q : String) (corpus : List CrawledPrompt)
    (maxResults : ℕ) (threshold : ℚ) :
    (∀ p ∈ findSimilarPrompts q corpus maxResults threshold,
        threshold ≤ similarityScore (promptTokens q) p) ∧
    (findSimilarPrompts q corpus maxResults threshold).length ≤ maxResults ∧
    (corpus = [] → findSimilarPrompts q corpus maxResults threshold = []) ∧
    (promptTokens q = [] → findSimilarPrompts q corpus maxResults threshold = []) ∧
    (promptTokens q ≠ [] →
      findSimilarPrompts q corpus maxResults threshold
        = ((sortDescBy (fun e => e.2.2) (keptList q corpus threshold).enum).take
            maxResults).map (fun e => e.2.1)) ∧
    (sortDescBy (fun e => e.2.2) (keptList q corpus threshold).enum).Pairwise
      (fun a b => b.2.2 < a.2.2 ∨ (a.2.2 = b.2.2 ∧ a.1 < b.1)) := by
  have hmem : ∀ s ∈ keptList q corpus threshold,
      threshold ≤ s.2 ∧ s.2 = similarityScore (promptTokens q) s.1 := by
    intro s hs
    rcases List.mem_filter.mp hs with ⟨hsc, hth⟩
    rcases List.mem_map.mp hsc with ⟨p0, _, hp0⟩
    refine ⟨of_decide_eq_true hth, ?_⟩
    rw [← hp0]
  refine ⟨?_, ?_, ?_, ?_, ?_, ?_⟩
  · intro p hp
    rw [findSimilarPrompts] at hp
    split at hp
    · simp at hp
    · rcases List.mem_map.mp hp with ⟨s, hs, rfl⟩
      have hs2 : s ∈ sortDescBy (fun s => s.2) (keptList q corpus threshold) :=
        List.take_subset _ _ hs
      rcases hmem s (mem_sortDescBy.mp hs2) with ⟨hth, heq⟩
      rw [← heq]
      exact hth
  · rw [findSimilarPrompts]
    split
    · simp
    · rw [List.length_map]
      exact (List.length_take_le _ _)
  · intro hc
    subst hc
    rw [findSimilarPrompts]
    split
    · rfl
    · simp [keptList, scoredList, sortDescBy]
  · intro hq
    rw [findSimilarPrompts, if_pos (by simp [hq])]
  · intro hq
    rw [findSimilarPrompts, if_neg (by simp [hq])]
    have hsm : sortDescBy (fun s : CrawledPrompt × ℚ => s.2) (keptList q corpus threshold)
        = (sortDescBy (fun e : ℕ × (CrawledPrompt × ℚ) => e.2.2)
            (keptList q corpus threshold).enum).map Prod.snd := by
      conv_lhs =>
        rw [show (keptList q corpus threshold)
              = (keptList q corpus threshold).enum.map Prod.snd from
            (List.enumFrom_map_snd 0 (keptList q corpus threshold)).symm]
      exact sortDescBy_map (fun e : ℕ × (CrawledPrompt × ℚ) => e.2.2)
        (fun s : CrawledPrompt × ℚ => s.2) Prod.snd (fun a => rfl) _
    rw [hsm, ← List.map_take, List.map_map]
    rfl
  · exact pairwise_sortDescBy (fun e : ℕ × (CrawledPrompt × ℚ) => e.2.2)
      (fun e : ℕ × (CrawledPrompt × ℚ) => e.1) _
      (pairwise_fst_lt_enum (keptList q corpus threshold))

/-- C6 witness: empty corpus and empty query both yield the empty
result at concrete inputs. -/
theorem findSimilarPrompts_spec_witness :
    findSimilarPrompts "optimize these prompts carefully" [] 5 (mkRat 1 10) = [] ∧
    findSimilarPrompts ""
      [{ title := "T", content := "C", source := "s", sourceId := "i",
         category := "cat", tags := [], fetchedAt := "t" }] 5 0 = [] :=
  ⟨(findSimilarPrompts_spec "optimize these prompts carefully" [] 5 (mkRat 1 10)).2.2.1 rfl,
   (findSimilarPrompts_spec ""
      [{ title := "T", content := "C", source := "s", sourceId := "i",
         category := "cat", tags := [], fetchedAt := "t" }] 5 0).2.2.2.1 (by decide)⟩

/-! ### Version ledger (versionManager.ts)

The persisted store is modelled as a map from prompt id to history; all
operations are pure state transformers returning their result together
with the successor store. Timestamps are threaded as opaque strings. -/

inductive VSource
  | manual
  | autoOptimize
  | imported
  deriving DecidableEq, Inhabited

structure PromptVersion where
  version : ℕ
  content : String
  judgeScore : Option ℚ
  source : VSource
  inspirationSource : Option String
  createdAt : String
  changeNote : Option String
  deriving DecidableEq, Inhabited

structure PromptHistory where
  promptId : String
  versions : List PromptVersion
  recommendedVersion : ℕ
  deriving DecidableEq, Inhabited

abbrev Store := String → Option PromptHistory

def emptyStore : Store := fun _ => none

def updateStore (σ : Store) (promptId : String) (h : PromptHistory) : Store :=
  fun j => if j = promptId then some h else σ j

/-- One pass of the recommendation loop body. -/
def recalcStep (best ver : PromptVersion) : PromptVersion :=
  match ver.judgeScore with
  | none => best
  | some vs =>
    match best.judgeScore with
    | none => ver
    | some bs =>
      if bs < vs then ver
      else if vs = bs ∧ best.version < ver.version then ver
      else best

/-- Recompute recommendedVersion: the scored version with the highest
score, ties to the higher ordinal; the latest version if none scored. -/
def recalcRecommended (h : PromptHistory) : PromptHistory :=
  match h.versions with
  | [] => h
  | v0 :: rest =>
    let best := (v0 :: rest).foldl recalcStep v0
    let best2 := match best.judgeScore with
      | none => (v0 :: rest).getLast (List.cons_ne_nil v0 rest)
      | some _ => best
    { h with recommendedVersion := best2.version }

def initHistory (σ : Store) (promptId content : String) (source : VSource) (now : String) :
    PromptHistory × Store :=
  match σ promptId with
  | some h => (h, σ)
  | none =>
    let h : PromptHistory :=
      { promptId := promptId
        versions := [{ version := 1, content := content, judgeScore := none, source := source,
                       inspirationSource := none, createdAt := now, changeNote := none }]
        recommendedVersion := 1 }
    (h, updateStore σ promptId h)

structure AddOpts where
  source : VSource
  judgeScore : Option ℚ
  inspirationSource : Option String
  changeNote : Option String
  deriving DecidableEq

def addVersion (σ : Store) (promptId content : String) (opts : AddOpts) (now : String) :
    Option PromptVersion × Store :=
  match σ promptId with
  | none => (none, σ)
  | some history =>
    let nextVersion := match history.versions.getLast? with
      | some v => v.version + 1
      | none => 1
    let ver : PromptVersion :=
      { version := nextVersion, content := content, judgeScore := opts.judgeScore,
        source := opts.source, inspirationSource := opts.inspirationSource,
        createdAt := now, changeNote := opts.changeNote }
    let h2 := recalcRecommended { history with versions := history.versions ++ [ver] }
    (some ver, updateStore σ promptId h2)

/-- Set the score on the first version with the given ordinal; none if
no version matches. -/
def setScoreInList (version : ℕ) (score : ℚ) : List PromptVersion → Option (List PromptVersion)
  | [] => none
  | v :: rest =>
    if v.version = version then some ({ v with judgeScore := some score } :: rest)
    else (setScoreInList version score rest).map (fun l => v :: l)

def setScore (σ : Store) (promptId : String) (version : ℕ) (score : ℚ) : Bool × Store :=
  match σ promptId with
  | none => (false, σ)
  | some history =>
    match setScoreInList version score history.versions with
    | none => (false, σ)
    | some vs2 =>
      let h2 := recalcRecommended { history with versions := vs2 }
      (true, updateStore σ promptId h2)

def getHistory (σ : Store) (promptId : String) : Option PromptHistory := σ promptId

def getVersion (σ : Store) (promptId : String) (version : ℕ) : Option PromptVersion :=
  match σ promptId with
  | none => none
  | some h => h.versions.find? (fun v => v.version == version)

/-- Stores reachable from the empty store by init, append and score
operations. -/
inductive Reachable : Store → Prop
  | empty : Reachable emptyStore
  | init (σ : Store) (promptId content : String) (source : VSource) (now : String) :
      Reachable σ → Reachable (initHistory σ promptId content source now).2
  | add (σ : Store) (promptId content : String) (opts : AddOpts) (now : String) :
      Reachable σ → Reachable (addVersion σ promptId content opts now).2
  | set (σ : Store) (promptId : String) (version : ℕ) (score : ℚ) :
      Reachable σ → Reachable (setScore σ promptId version score).2

/-- The recommendation invariant of a history. -/
def RecommendOK (h : PromptHistory) : Prop :=
  h.versions ≠ [] ∧
  ((∀ v ∈ h.versions, v.judgeScore = none) →
    ∃ last, h.versions.getLast? = some last ∧ h.recommendedVersion = last.version) ∧
  ((∃ v ∈ h.versions, v.judgeScore ≠ none) →
    ∃ v ∈ h.versions, ∃ s : ℚ, v.judgeScore = some s ∧ h.recommendedVersion = v.version ∧
      ∀ w ∈ h.versions, ∀ t : ℚ, w.judgeScore = some t →
        t < s ∨ (t = s ∧ w.version ≤ v.version))

/-! ### Correctness of the recommendation recomputation -/

/-- w is dominated by v in the (score, ordinal) lexicographic order,
whenever w is scored. -/
def ScoreLe (w v : PromptVersion) : Prop :=
  ∀ t : ℚ, w.judgeScore = some t →
    ∃ s : ℚ, v.judgeScore = some s ∧ (t < s ∨ (t = s ∧ w.version ≤ v.version))

lemma scoreLe_refl (v : PromptVersion) : ScoreLe v v :=
  fun t ht => ⟨t, ht, Or.inr ⟨rfl, le_refl _⟩⟩

lemma scoreLe_trans {a b c : PromptVersion} (hab : ScoreLe a b) (hbc : ScoreLe b c) :
    ScoreLe a c := by
  intro t ht
  obtain ⟨s, hs, h1⟩ := hab t ht
  obtain ⟨u, hu, h2⟩ := hbc s hs
  refine ⟨u, hu, ?_⟩
  rcases h1 with h1 | ⟨h1e, h1l⟩ <;> rcases h2 with h2 | ⟨h2e, h2l⟩
  · exact Or.inl (lt_trans h1 h2)
  · exact Or.inl (by rw [← h2e]; exact h1)
  · exact Or.inl (by rw [h1e]; exact h2)
  · exact Or.inr ⟨h1e.trans h2e, le_trans h1l h2l⟩

lemma recalcStep_unscored (b v : PromptVersion) (h : v.judgeScore = none) :
    recalcStep b v = b := by
  unfold recalcStep
  rw [h]

lemma recalcStep_cases (b v : PromptVersion) : recalcStep b v = b ∨ recalcStep b v = v := by
  unfold recalcStep
  cases hv : v.judgeScore with
  | none => exact Or.inl rfl
  | some vs =>
    cases hb : b.judgeScore with
    | none => exact Or.inr rfl
    | some bs =>
      dsimp only
      split
      · exact Or.inr rfl
      · split
        · exact Or.inr rfl
        · exact Or.inl rfl

lemma scoreLe_recalcStep_left (b v : PromptVersion) : ScoreLe b (recalcStep b v) := by
  intro t ht
  unfold recalcStep
  cases hv : v.judgeScore with
  | none => exact ⟨t, ht, Or.inr ⟨rfl, le_refl _⟩⟩
  | some vs =>
    rw [ht]
    dsimp only
    split
    · rename_i hlt
      exact ⟨vs, hv, Or.inl hlt⟩
    · split
      · rename_i hcond
        exact ⟨vs, hv, Or.inr ⟨hcond.1.symm, le_of_lt hcond.2⟩⟩
      · exact ⟨t, ht, Or.inr ⟨rfl, le_refl _⟩⟩

lemma scoreLe_recalcStep_right (b v : PromptVersion) : ScoreLe v (recalcStep b v) := by
  intro t ht
  unfold recalcStep
  rw [ht]
  dsimp only
  cases hb : b.judgeScore with
  | none => exact ⟨t, ht, Or.inr ⟨rfl, le_refl _⟩⟩
  | some bs =>
    dsimp only
    split
    · exact ⟨t, ht, Or.inr ⟨rfl, le_refl _⟩⟩
    · split
      · exact ⟨t, ht, Or.inr ⟨rfl, le_refl _⟩⟩
      · rename_i h1 h2
        refine ⟨bs, hb, ?_⟩
        rcases lt_or_eq_of_le (le_of_not_lt h1) with hlt | heq
        · exact Or.inl hlt
        · refine Or.inr ⟨heq, Nat.le_of_not_lt (fun hgt => h2 ⟨heq, hgt⟩)⟩

lemma foldl_recalcStep_spec (l : List PromptVersion) :
    ∀ b : PromptVersion,
      (l.foldl recalcStep b = b ∨ l.foldl recalcStep b ∈ l) ∧
      ScoreLe b (l.foldl recalcStep b) ∧
      (∀ v ∈ l, ScoreLe v (l.foldl recalcStep b)) ∧
      ((l.foldl recalcStep b).judgeScore = none → l.foldl recalcStep b = b) := by
  induction l with
  | nil =>
    intro b
    exact ⟨Or.inl rfl, scoreLe_refl b, by simp, fun _ => rfl⟩
  | cons v l ih =>
    intro b
    rw [List.foldl_cons]
    obtain ⟨hmem, hb, hall, hnone⟩ := ih (recalcStep b v)
    refine ⟨?_, ?_, ?_, ?_⟩
    · rcases hmem with h | h
      · rcases recalcStep_cases b v with hc | hc
        · exact Or.inl (h.trans hc)
        · exact Or.inr (by rw [h, hc]; simp)
      · exact Or.inr (List.mem_cons_of_mem _ h)
    · exact scoreLe_trans (scoreLe_recalcStep_left b v) hb
    · intro w hw
      rcases List.mem_cons.mp hw with rfl | hw
      · exact scoreLe_trans (scoreLe_recalcStep_right b w) hb
      · exact hall w hw
    · intro hsc
      have h1 := hnone hsc
      rcases recalcStep_cases b v with hc | hc
      · exact h1.trans hc
      · have hv : v.judgeScore = none := by rw [h1, hc] at hsc; exact hsc
        exact h1.trans (recalcStep_unscored b v hv)

lemma recalcRecommended_versions (h : PromptHistory) :
    (recalcRecommended h).versions = h.versions := by
  unfold recalcRecommended
  cases hv : h.versions with
  | nil => exact hv
  | cons v0 rest => rfl

lemma recalcRecommended_ok (h : PromptHistory) (hne : h.versions ≠ []) :
    RecommendOK (recalcRecommended h) := by
  rcases hv : h.versions with _ | ⟨v0, rest⟩
  · exact absurd hv hne
  · have hvr : (recalcRecommended h).versions = v0 :: rest := by
      rw [recalcRecommended_versions, hv]
    obtain ⟨hmem, _, hall, -⟩ := foldl_recalcStep_spec (v0 :: rest) v0
    have hrmem : (v0 :: rest).foldl recalcStep v0 ∈ v0 :: rest := by
      rcases hmem with h1 | h1
      · rw [h1]; simp
      · exact h1
    have hrec : recalcRecommended h =
        { h with recommendedVersion :=
            (match ((v0 :: rest).foldl recalcStep v0).judgeScore with
              | none => (v0 :: rest).getLast (List.cons_ne_nil v0 rest)
              | some _ => (v0 :: rest).foldl recalcStep v0).version } := by
      unfold recalcRecommended
      rw [hv]
    cases hsc : ((v0 :: rest).foldl recalcStep v0).judgeScore with
    | none =>
      refine ⟨by rw [hvr]; simp, ?_, ?_⟩
      · intro _
        refine ⟨(v0 :: rest).getLast (List.cons_ne_nil v0 rest), ?_, ?_⟩
        · rw [hvr]
          exact List.getLast?_eq_getLast _ _
        · rw [hrec, hsc]
      · intro hex
        rcases hex with ⟨v, hvm, hvs⟩
        rw [hvr] at hvm
        rcases Option.ne_none_iff_exists'.mp hvs with ⟨t, ht⟩
        obtain ⟨s, hs, -⟩ := hall v hvm t ht
        rw [hsc] at hs
        exact absurd hs (by simp)
    | some s =>
      refine ⟨by rw [hvr]; simp, ?_, ?_⟩
      · intro hunsc
        have := hunsc _ (by rw [hvr]; exact hrmem)
        rw [hsc] at this
        exact absurd this (by simp)
      · intro _
        refine ⟨(v0 :: rest).foldl recalcStep v0, by rw [hvr]; exact hrmem, s, hsc, ?_, ?_⟩
        · rw [hrec, hsc]
        · intro w hw t ht
          rw [hvr] at hw
          obtain ⟨s', hs', hrel⟩ := hall w hw t ht
          rw [hsc] at hs'
          rcases Option.some.inj hs' with rfl
          exact hrel

lemma setScoreInList_ne_nil {w : ℕ} {sc : ℚ} :
    ∀ {l l2 : List PromptVersion}, setScoreInList w sc l = some l2 → l2 ≠ [] := by
  intro l l2 hl
  cases l with
  | nil => simp [setScoreInList] at hl
  | cons v rest =>
    rw [setScoreInList] at hl
    split at hl
    · rcases Option.some.inj hl with rfl
      simp
    · rcases Option.map_eq_some'.mp hl with ⟨l', -, rfl⟩
      simp

lemma reachable_recOK : ∀ σ : Store, Reachable σ →
    ∀ (promptId : String) (h : PromptHistory), σ promptId = some h → RecommendOK h := by
  intro σ hσ
  induction hσ with
  | empty =>
    intro id h hl
    exact absurd hl (by simp [emptyStore])
  | init σ' pid c src now _ ih =>
    intro id h hl
    unfold initHistory at hl
    cases hs : σ' pid with
    | some h0 =>
      rw [hs] at hl
      exact ih id h hl
    | none =>
      rw [hs] at hl
      dsimp only at hl
      by_cases hid : id = pid
      · rw [updateStore, if_pos hid] at hl
        rcases Option.some.inj hl with rfl
        refine ⟨by simp, ?_, ?_⟩
        · intro _
          exact ⟨_, rfl, rfl⟩
        · intro hex
          rcases hex with ⟨v, hvm, hvs⟩
          simp only [List.mem_singleton] at hvm
          subst hvm
          exact absurd rfl hvs
      · rw [updateStore, if_neg hid] at hl
        exact ih id h hl
  | add σ' pid c opts now _ ih =>
    intro id h hl
    unfold addVersion at hl
    cases hs : σ' pid with
    | none =>
      rw [hs] at hl
      exact ih id h hl
    | some h0 =>
      rw [hs] at hl
      dsimp only at hl
      by_cases hid : id = pid
      · rw [updateStore, if_pos hid] at hl
        rcases Option.some.inj hl with rfl
        exact recalcRecommended_ok _ (by simp)
      · rw [updateStore, if_neg hid] at hl
        exact ih id h hl
  | set σ' pid vn sc _ ih =>
    intro id h hl
    unfold setScore at hl
    cases hs : σ' pid with
    | none =>
      rw [hs] at hl
      exact ih id h hl
    | some h0 =>
      rw [hs] at hl
      dsimp only at hl
      cases hsl : setScoreInList vn sc h0.versions with
      | none =>
        rw [hsl] at hl
        exact ih id h hl
      | some vs2 =>
        rw [hsl] at hl
        dsimp only at hl
        by_cases hid : id = pid
        · rw [updateStore, if_pos hid] at hl
          rcases Option.some.inj hl with rfl
          exact recalcRecommended_ok _ (setScoreInList_ne_nil hsl)
        · rw [updateStore, if_neg hid] at hl
          exact ih id h hl

/-! ### C3: the recommendation invariant on all reachable stores -/

/-- C3: in every history of a store reachable by initHistory,
addVersion and setScore, recommendedVersion is the ordinal of the scored
version with the strictly highest judge score, ties resolved to the
higher ordinal, and the latest ordinal when no version is scored. -/
theorem versionLedger_recommended_invariant (σ : Store) (hσ : Reachable σ)
    (promptId : String) (h : PromptHistory) (hl : σ promptId = some h) :
    h.versions ≠ [] ∧
    ((∀ v ∈ h.versions, v.judgeScore = none) →
      ∃ last, h.versions.getLast? = some last ∧ h.recommendedVersion = last.version) ∧
    ((∃ v ∈ h.versions, v.judgeScore ≠ none) →
      ∃ v ∈ h.versions, ∃ s : ℚ, v.judgeScore = some s ∧ h.recommendedVersion = v.version ∧
        ∀ w ∈ h.versions, ∀ t : ℚ, w.judgeScore = some t →
          t < s ∨ (t = s ∧ w.version ≤ v.version)) :=
  reachable_recOK σ hσ promptId h hl

/-- The scenario store: three versions scored 3.0, 4.5, 4.5 at ordinals
1, 2, 3. -/
def storeD : Store :=
  (setScore (setScore (setScore
    (addVersion (addVersion
      (initHistory emptyStore "p1" "V1" VSource.manual "t1").2
      "p1" "V2" ⟨VSource.autoOptimize, none, none, none⟩ "t2").2
      "p1" "V3" ⟨VSource.autoOptimize, none, none, none⟩ "t3").2
    "p1" 1 3).2 "p1" 2 (mkRat 9 2)).2 "p1" 3 (mkRat 9 2)).2

lemma storeD_reachable : Reachable storeD :=
  Reachable.set _ _ _ _ (Reachable.set _ _ _ _ (Reachable.set _ _ _ _
    (Reachable.add _ _ _ _ _ (Reachable.add _ _ _ _ _
      (Reachable.init _ _ _ _ _ Reachable.empty)))))

def histD : PromptHistory := (storeD "p1").getD default

/-- C3 witness: the invariant holds at the concrete scenario store, and
there the tie between the two versions scored 4.5 resolves to ordinal 3. -/
theorem versionLedger_recommended_invariant_witness :
    histD.recommendedVersion = 3 ∧ storeD "p1" = some histD ∧
    (histD.versions ≠ [] ∧
    ((∀ v ∈ histD.versions, v.judgeScore = none) →
      ∃ last, histD.versions.getLast? = some last ∧ histD.recommendedVersion = last.version) ∧
    ((∃ v ∈ histD.versions, v.judgeScore ≠ none) →
      ∃ v ∈ histD.versions, ∃ s : ℚ, v.judgeScore = some s ∧
        histD.recommendedVersion = v.version ∧
        ∀ w ∈ histD.versions, ∀ t : ℚ, w.judgeScore = some t →
          t < s ∨ (t = s ∧ w.version ≤ v.version))) :=
  ⟨by decide, by decide,
   versionLedger_recommended_invariant storeD storeD_reachable "p1" histD (by decide)⟩

/-! ### C2: version immutability -/

def storeC2a : Store :=
  (setScore (initHistory emptyStore "p1" "V1" VSource.manual "t1").2 "p1" 1 3).2

def storeC2b : Store := (setScore storeC2a "p1" 1 4).2

/-- C2 counterexample: setScore on a version whose judgeScore is
already set succeeds and overwrites the stored score, so the score does
not transition at most once. -/
theorem setScore_overwrites_existing_score :
    (getVersion storeC2a "p1" 1).map (fun v => v.judgeScore) = some (some 3) ∧
    (setScore storeC2a "p1" 1 4).1 = true ∧
    (getVersion storeC2b "p1" 1).map (fun v => v.judgeScore) = some (some 4) := by
  decide

lemma getVersion_eq (σ : Store) (q : String) (v : ℕ) :
    getVersion σ q v = (σ q).bind (fun h => h.versions.find? (fun u => u.version == v)) := by
  unfold getVersion
  cases σ q <;> rfl

lemma updateStore_app (σ : Store) (pid : String) (h : PromptHistory) (q : String) :
    updateStore σ pid h q = if q = pid then some h else σ q := rfl

lemma find?_append_some {p : PromptVersion → Bool} {l : List PromptVersion}
    {x : PromptVersion} (l' : List PromptVersion) (h : l.find? p = some x) :
    (l ++ l').find? p = some x := by
  induction l with
  | nil => simp at h
  | cons v rest ih =>
    cases hp : p v with
    | true =>
      rw [List.find?_cons_of_pos _ hp] at h
      exact (List.find?_cons_of_pos _ hp).trans h
    | false =>
      rw [List.find?_cons_of_neg _ (by simp [hp])] at h
      exact (List.find?_cons_of_neg _ (by simp [hp])).trans (ih h)

lemma setScoreInList_find_other {w v : ℕ} {sc : ℚ} (hne : w ≠ v) :
    ∀ {l l2 : List PromptVersion}, setScoreInList w sc l = some l2 →
      l2.find? (fun u => u.version == v) = l.find? (fun u => u.version == v) := by
  intro l
  induction l with
  | nil =>
    intro l2 h
    simp [setScoreInList] at h
  | cons u rest ih =>
    intro l2 h
    rw [setScoreInList] at h
    split at h
    · rename_i hu
      rcases Option.some.inj h with rfl
      have h1 : ¬ (({ u with judgeScore := some sc } : PromptVersion).version == v) = true := by
        simp only [beq_iff_eq]
        show u.version ≠ v
        rw [hu]
        exact hne
      have h2 : ¬ (u.version == v) = true := by
        simp only [beq_iff_eq]
        rw [hu]
        exact hne
      rw [@List.find?_cons_of_neg _ (fun u => u.version == v)
            ({ u with judgeScore := some sc }) rest h1,
          @List.find?_cons_of_neg _ (fun u => u.version == v) u rest h2]
    · rename_i hu
      rcases Option.map_eq_some'.mp h with ⟨l2', hl2, rfl⟩
      by_cases hb : (u.version == v) = true
      · rw [@List.find?_cons_of_pos _ (fun u => u.version == v) u l2' hb,
            @List.find?_cons_of_pos _ (fun u => u.version == v) u rest hb]
      · rw [@List.find?_cons_of_neg _ (fun u => u.version == v) u l2' hb,
            @List.find?_cons_of_neg _ (fun u => u.version == v) u rest hb]
        exact ih hl2

lemma setScoreInList_find_same {w : ℕ} {sc : ℚ} :
    ∀ {l l2 : List PromptVersion} {ver : PromptVersion},
      setScoreInList w sc l = some l2 →
      l.find? (fun u => u.version == w) = some ver →
      l2.find? (fun u => u.version == w) = some { ver with judgeScore := some sc } := by
  intro l
  induction l with
  | nil =>
    intro l2 ver h
    simp [setScoreInList] at h
  | cons u rest ih =>
    intro l2 ver h hf
    rw [setScoreInList] at h
    split at h
    · rename_i hu
      rcases Option.some.inj h with rfl
      rw [@List.find?_cons_of_pos _ (fun u => u.version == w) u rest (beq_iff_eq.mpr hu)] at hf
      have hv : u = ver := Option.some.inj hf
      subst hv
      exact @List.find?_cons_of_pos _ (fun u => u.version == w)
        ({ u with judgeScore := some sc }) rest (beq_iff_eq.mpr hu)
    · rename_i hu
      rcases Option.map_eq_some'.mp h with ⟨l2', hl2, rfl⟩
      have huw : ¬ (u.version == w) = true := by
        simp only [beq_iff_eq]
        exact hu
      rw [@List.find?_cons_of_neg _ (fun u => u.version == w) u rest huw] at hf
      rw [@List.find?_cons_of_neg _ (fun u => u.version == w) u l2' huw]
      exact ih hl2 hf

/-- C2 amended: after a version is appended, its content, ordinal,
source and timestamp never change under any ledger operation; its
judgeScore is changed only by a setScore call targeting exactly that
prompt and ordinal, and such a call overwrites the stored score
unconditionally (there is no set-at-most-once guard). -/
theorem version_fields_immutable_score_overwritable
    (σ : Store) (pid c : String) (src : VSource) (now : String) (opts : AddOpts)
    (w : ℕ) (sc : ℚ) (q : String) (v : ℕ) (ver : PromptVersion) :
    (getVersion σ q v = some ver →
      getVersion (initHistory σ pid c src now).2 q v = some ver) ∧
    (getVersion σ q v = some ver →
      getVersion (addVersion σ pid c opts now).2 q v = some ver) ∧
    (getVersion σ q v = some ver →
      ∃ ver2, getVersion (setScore σ pid w sc).2 q v = some ver2 ∧
        ver2.content = ver.content ∧ ver2.version = ver.version ∧
        ver2.source = ver.source ∧ ver2.createdAt = ver.createdAt ∧
        ((q ≠ pid ∨ w ≠ v) → ver2 = ver) ∧
        (q = pid → w = v → (setScore σ pid w sc).1 = true → ver2.judgeScore = some sc)) := by
  refine ⟨?_, ?_, ?_⟩
  · intro hv
    rw [getVersion_eq] at hv ⊢
    cases hq : σ q with
    | none => rw [hq] at hv; exact absurd hv (by simp)
    | some hq0 =>
      rw [hq] at hv
      unfold initHistory
      cases hs : σ pid with
      | some h0 =>
        dsimp only
        rw [hq]
        exact hv
      | none =>
        dsimp only
        rw [updateStore_app]
        have hqp : ¬(q = pid) := fun he => by rw [he, hs] at hq; cases hq
        rw [if_neg hqp, hq]
        exact hv
  · intro hv
    rw [getVersion_eq] at hv ⊢
    cases hq : σ q with
    | none => rw [hq] at hv; exact absurd hv (by simp)
    | some hq0 =>
      rw [hq] at hv
      simp only [Option.some_bind] at hv
      unfold addVersion
      cases hs : σ pid with
      | none =>
        dsimp only
        rw [hq]
        simpa using hv
      | some h0 =>
        dsimp only
        rw [updateStore_app]
        by_cases hqp : q = pid
        · rw [if_pos hqp]
          have hh : hq0 = h0 := by
            rw [hqp, hs] at hq
            exact (Option.some.inj hq).symm
          subst hh
          simp only [Option.some_bind, recalcRecommended_versions]
          exact find?_append_some _ hv
        · rw [if_neg hqp, hq]
          simpa using hv
  · intro hv
    rw [getVersion_eq] at hv
    cases hq : σ q with
    | none => rw [hq] at hv; exact absurd hv (by simp)
    | some hq0 =>
      rw [hq] at hv
      simp only [Option.some_bind] at hv
      unfold setScore
      cases hs : σ pid with
      | none =>
        refine ⟨ver, ?_, rfl, rfl, rfl, rfl, fun _ => rfl, ?_⟩
        · rw [getVersion_eq]
          dsimp only
          rw [hq]
          simpa using hv
        · intro hqp hwv htrue
          dsimp only at htrue
          cases htrue
      | some h0 =>
        dsimp only
        cases hsl : setScoreInList w sc h0.versions with
        | none =>
          refine ⟨ver, ?_, rfl, rfl, rfl, rfl, fun _ => rfl, ?_⟩
          · rw [getVersion_eq]
            dsimp only
            rw [hq]
            simpa using hv
          · intro hqp hwv htrue
            cases htrue
        | some vs2 =>
          by_cases hqp : q = pid
          · have hh : hq0 = h0 := by
              rw [hqp, hs] at hq
              exact (Option.some.inj hq).symm
            subst hh
            by_cases hwv : w = v
            · subst hwv
              refine ⟨{ ver with judgeScore := some sc }, ?_, rfl, rfl, rfl, rfl, ?_, ?_⟩
              · rw [getVersion_eq]
                dsimp only
                rw [updateStore_app, if_pos hqp]
                simp only [Option.some_bind, recalcRecommended_versions]
                exact setScoreInList_find_same hsl hv
              · intro hcon
                rcases hcon with hcon | hcon
                · exact absurd hqp hcon
                · exact absurd rfl hcon
              · intro _ _ _
                rfl
            · refine ⟨ver, ?_, rfl, rfl, rfl, rfl, fun _ => rfl, ?_⟩
              · rw [getVersion_eq]
                dsimp only
                rw [updateStore_app, if_pos hqp]
                simp only [Option.some_bind, recalcRecommended_versions]
                rw [setScoreInList_find_other hwv hsl]
                exact hv
              · intro _ hwv2 _
                exact absurd hwv2 hwv
          · refine ⟨ver, ?_, rfl, rfl, rfl, rfl, fun _ => rfl, ?_⟩
            · rw [getVersion_eq]
              dsimp only
              rw [updateStore_app, if_neg hqp, hq]
              simpa using hv
            · intro hqp2 _ _
              exact absurd hqp2 hqp

/-- C2 amended witness: a setScore call for a different ordinal leaves
version 1 untouched, and a matching setScore call overwrites. -/
theorem version_fields_immutable_witness :
    getVersion (setScore storeC2a "p1" 2 5).2 "p1" 1
      = some { version := 1, content := "V1", judgeScore := some 3,
               source := VSource.manual, inspirationSource := none,
               createdAt := "t1", changeNote := none } := by
  have h := (version_fields_immutable_score_overwritable storeC2a "p1" "x" VSource.manual
    "t9" ⟨VSource.manual, none, none, none⟩ 2 5 "p1" 1
    { version := 1, content := "V1", judgeScore := some 3,
      source := VSource.manual, inspirationSource := none,
      createdAt := "t1", changeNote := none }).2.2 (by decide)
  rcases h with ⟨ver2, hget, _, _, _, _, hunch, _⟩
  rw [hget, hunch (Or.inr (by decide))]

/-! ### C8: failure behavior on unknown identifiers and ordinals -/

lemma setScoreInList_eq_none {w : ℕ} {sc : ℚ} :
    ∀ {l : List PromptVersion}, (∀ v ∈ l, v.version ≠ w) → setScoreInList w sc l = none := by
  intro l
  induction l with
  | nil => intro _; rfl
  | cons u rest ih =>
    intro hall
    rw [setScoreInList, if_neg (hall u (by simp)), ih (fun v hv => hall v (by simp [hv]))]
    rfl

/-- C8: addVersion on an unknown identifier returns none and leaves the
store unchanged; setScore on an unknown identifier, or an ordinal not
present in the history, returns false and leaves the store unchanged. -/
theorem ledger_unknown_inputs_noop
    (σ : Store) (pid c : String) (opts : AddOpts) (now : String) (w : ℕ) (sc : ℚ) :
    (σ pid = none → addVersion σ pid c opts now = (none, σ)) ∧
    (σ pid = none → setScore σ pid w sc = (false, σ)) ∧
    (∀ h, σ pid = some h → (∀ v ∈ h.versions, v.version ≠ w) →
      setScore σ pid w sc = (false, σ)) := by
  refine ⟨?_, ?_, ?_⟩
  · intro hs
    unfold addVersion
    rw [hs]
  · intro hs
    unfold setScore
    rw [hs]
  · intro h hs hall
    unfold setScore
    rw [hs]
    dsimp only
    rw [setScoreInList_eq_none hall]

/-- C8 witness: concrete unknown id and unknown ordinal failures. -/
theorem ledger_unknown_inputs_noop_witness :
    addVersion emptyStore "nope" "c" ⟨VSource.manual, none, none, none⟩ "t"
      = (none, emptyStore) ∧
    setScore emptyStore "nope" 1 5 = (false, emptyStore) ∧
    setScore (initHistory emptyStore "p1" "V1" VSource.manual "t1").2 "p1" 99 5
      = (false, (initHistory emptyStore "p1" "V1" VSource.manual "t1").2) :=
  ⟨(ledger_unknown_inputs_noop emptyStore "nope" "c" ⟨VSource.manual, none, none, none⟩
      "t" 1 5).1 rfl,
   (ledger_unknown_inputs_noop emptyStore "nope" "c" ⟨VSource.manual, none, none, none⟩
      "t" 1 5).2.1 rfl,
   (ledger_unknown_inputs_noop (initHistory emptyStore "p1" "V1" VSource.manual "t1").2
      "p1" "c" ⟨VSource.manual, none, none, none⟩ "t" 99 5).2.2
      { promptId := "p1",
        versions := [{ version := 1, content := "V1", judgeScore := none,
                       source := VSource.manual, inspirationSource := none,
                       createdAt := "t1", changeNote := none }],
        recommendedVersion := 1 } (by decide) (by decide)⟩

/-! ### Optimizer (optimizer.ts PromptOptimizer) -/

structure OptimizationResult where
  originalContent : String
  optimizedContent : String
  originalScore : ℚ
  optimizedScore : ℚ
  improved : Bool
  feedback : String
  inspirationSources : List String
  method : EvalMethod
  deriving DecidableEq

/-- The optimizer configuration together with its cached reference
corpus (cachedOpenSourcePrompts). -/
structure OptimizerConfig where
  maxReferences : ℕ
  similarityThreshold : ℚ
  cached : List CrawledPrompt
  deriving DecidableEq

def optimizePrompt (o : Oracle) (jcfg : JudgeConfig) (cfg : OptimizerConfig)
    (st : JudgeState) (content : String) : OptimizationResult × JudgeState :=
  let references := findSimilarPrompts content cfg.cached cfg.maxReferences
    cfg.similarityThreshold
  let optimizedContent := optimizeWithRules content references
  let r1 := scorePrompt o jcfg st content
  let r2 := scorePrompt o jcfg r1.2 optimizedContent
  let feedback0 := "Original: " ++ toString r1.1.score ++ "/5, Optimized: "
    ++ toString r2.1.score ++ "/5"
  if |qSub r2.1.score r1.1.score| < mkRat 1 2 ∧ optimizedContent ≠ content then
    let c := compareVersions o jcfg r2.2 content optimizedContent
    ({ originalContent := content, optimizedContent := optimizedContent,
       originalScore := r1.1.score, optimizedScore := r2.1.score,
       improved := c.1.winner == Winner.B,
       feedback := feedback0 ++ "\nA/B comparison: " ++ c.1.feedback,
       inspirationSources := references.map (fun r => r.source),
       method := r1.1.method }, c.2)
  else
    ({ originalContent := content, optimizedContent := optimizedContent,
       originalScore := r1.1.score, optimizedScore := r2.1.score,
       improved := decide (r1.1.score < r2.1.score),
       feedback := feedback0,
       inspirationSources := references.map (fun r => r.source),
       method := r1.1.method }, r2.2)

def optimizeAndVersion (o : Oracle) (jcfg : JudgeConfig) (cfg : OptimizerConfig)
    (st : JudgeState) (promptId content : String) (σ : Store) (now : String) :
    OptimizationResult × JudgeState × Store :=
  let r := optimizePrompt o jcfg cfg st content
  if r.1.improved then
    let σ1 := (addVersion σ promptId r.1.optimizedContent
      { source := VSource.autoOptimize, judgeScore := some r.1.optimizedScore,
        inspirationSource := some (String.intercalate ", " r.1.inspirationSources),
        changeNote := some ("Auto-optimized: " ++ r.1.feedback) } now).2
    let σ2 := match σ1 promptId with
      | some history =>
        match history.versions.find? (fun v => v.content == content) with
        | some origVer =>
          if origVer.judgeScore = none then
            (setScore σ1 promptId origVer.version r.1.originalScore).2
          else σ1
        | none => σ1
      | none => σ1
    (r.1, r.2, σ2)
  else (r.1, r.2, σ)

/-! ### C1: the improvement decision -/

def cexOracle : Oracle :=
  { probe := true
    calls := fun n =>
      if n == 0 then RemoteOutcome.fail
      else if n == 1 then RemoteOutcome.ok "Solid prompt. [RESULT] 3"
      else RemoteOutcome.ok "Version A reads better. [RESULT] A" }

def cexContent : String :=
  "You are a dev. You must first fix this bug, then return the output format. Keep the code clean and tidy always."

def cexConfig : OptimizerConfig :=
  { maxReferences := 5, similarityThreshold := mkRat 1 10, cached := [] }

def cexResult : OptimizationResult :=
  (optimizePrompt cexOracle defaultJudgeConfig cexConfig ⟨none, 0⟩ cexContent).1

set_option maxRecDepth 40000 in
/-- C1 counterexample: the original scores 2.8 on the heuristic path
after its remote call fails, the candidate scores 3 via the remote
judge, so the candidate score is strictly greater; the two scores
differ by less than 0.5 and the text changed, so the A/B comparison
runs, answers A, and improved ends up false even though the candidate
scored strictly higher. -/
theorem optimizePrompt_strictly_better_candidate_rejected :
    cexResult.originalScore < cexResult.optimizedScore ∧ cexResult.improved = false := by
  decide

lemma scorePrompt_unavailable (o : Oracle) (jcfg : JudgeConfig) (st : JudgeState)
    (c : String) (h : st.llmAvailable = some false) :
    scorePrompt o jcfg st c = (heuristicScore c, st) := by
  simp [scorePrompt, h]

/-- C1 amended: improved equals the candidate-wins verdict of the A/B
comparison when the two scores differ by less than 0.5 and the
transformer changed the text, and equals the strict score comparison
otherwise; in particular an unchanged text never has its improvement
decision flipped by the comparison, on the deterministic path an
unchanged text is never an improvement, and on the deterministic path a
strictly higher candidate score always yields improved = true. A
strictly higher candidate score inside the comparison window can be
overridden by the remote comparison verdict, as the counterexample
shows. -/
theorem optimizePrompt_improved_characterization
    (o : Oracle) (jcfg : JudgeConfig) (cfg : OptimizerConfig) (st : JudgeState)
    (content : String) :
    let cand := optimizeWithRules content (findSimilarPrompts content cfg.cached
      cfg.maxReferences cfg.similarityThreshold)
    let r1 := scorePrompt o jcfg st content
    let r2 := scorePrompt o jcfg r1.2 cand
    let res := (optimizePrompt o jcfg cfg st content).1
    (res.improved = if |qSub r2.1.score r1.1.score| < mkRat 1 2 ∧ cand ≠ content
        then ((compareVersions o jcfg r2.2 content cand).1.winner == Winner.B)
        else decide (r1.1.score < r2.1.score)) ∧
    (cand = content → res.improved = decide (r1.1.score < r2.1.score)) ∧
    (st.llmAvailable = some false → cand = content → res.improved = false) ∧
    (st.llmAvailable = some false → r1.1.score < r2.1.score → res.improved = true) := by
  intro cand r1 r2 res
  have hchar : res.improved = if |qSub r2.1.score r1.1.score| < mkRat 1 2 ∧ cand ≠ content
      then ((compareVersions o jcfg r2.2 content cand).1.winner == Winner.B)
      else decide (r1.1.score < r2.1.score) := by
    show (optimizePrompt o jcfg cfg st content).1.improved = _
    unfold optimizePrompt
    dsimp only
    split
    · rfl
    · rfl
  refine ⟨hchar, ?_, ?_, ?_⟩
  · intro heq
    rw [hchar, if_neg (by simp [heq])]
  · intro hst heq
    rw [hchar, if_neg (by simp [heq])]
    have h1 : r1 = (heuristicScore content, st) := scorePrompt_unavailable o jcfg st content hst
    have h2 : r2 = (heuristicScore cand, st) := by
      show scorePrompt o jcfg r1.2 cand = _
      rw [h1]
      exact scorePrompt_unavailable o jcfg st cand hst
    rw [h1, h2, heq]
    simp
  · intro hst hlt
    have h1 : r1 = (heuristicScore content, st) := scorePrompt_unavailable o jcfg st content hst
    have h2 : r2 = (heuristicScore cand, st) := by
      show scorePrompt o jcfg r1.2 cand = _
      rw [h1]
      exact scorePrompt_unavailable o jcfg st cand hst
    rw [hchar]
    split
    · have hwin : (compareVersions o jcfg r2.2 content cand).1.winner = Winner.B := by
        refine (compareVersions_fallback_ties_to_B o jcfg r2.2 content cand ?_).mpr ?_
        · rw [h2]
          exact hst
        · rw [h1, h2] at hlt
          exact le_of_lt hlt
      rw [hwin]
      rfl
    · simp only [decide_eq_true_eq]
      exact hlt

def detOracle : Oracle := { probe := false, calls := fun _ => RemoteOutcome.ok "unused" }

/-- C1 amended witness: on the deterministic path, a text on which every
rule is a no-op yields improved = false. -/
theorem optimizePrompt_improved_characterization_witness :
    ((optimizePrompt detOracle defaultJudgeConfig cexConfig ⟨some false, 0⟩
        "You are a helper. You must return the output.").1).improved = false :=
  (optimizePrompt_improved_characterization detOracle defaultJudgeConfig cexConfig
      ⟨some false, 0⟩ "You are a helper. You must return the output.").2.2.1 rfl (by decide)

/-! ### Update scheduler optimize cycle (scheduler.ts) -/

structure SchedulerConfig where
  crawlIntervalMs : ℕ
  optimizeIntervalMs : ℕ
  maxOptimizePerCycle : ℕ
  minUsageForOptimize : ℕ
  enabled : Bool
  deriving DecidableEq

/-- A candidate from the prompt provider callback. -/
structure UserPrompt where
  id : String
  content : String
  usageCount : ℕ
  deriving DecidableEq

inductive SchedulerEventType
  | crawlStart
  | crawlDone
  | optimizeStart
  | optimizeDone
  | error
  deriving DecidableEq

structure SchedulerEvent where
  type : SchedulerEventType
  detail : Option String
  deriving DecidableEq

/-- Processing of one selected candidate: with a version manager the
cycle runs optimizeAndVersion, otherwise plain optimizePrompt; the
result is appended in order. -/
def optimizeCycleStep (o : Oracle) (jcfg : JudgeConfig) (ocfg : OptimizerConfig) (now : String)
    (acc : List OptimizationResult × JudgeState × Option Store) (p : UserPrompt) :
    List OptimizationResult × JudgeState × Option Store :=
  match acc.2.2 with
  | some σ =>
    let r := optimizeAndVersion o jcfg ocfg acc.2.1 p.id p.content σ now
    (acc.1 ++ [r.1], r.2.1, some r.2.2)
  | none =>
    let r := optimizePrompt o jcfg ocfg acc.2.1 p.content
    (acc.1 ++ [r.1], r.2, none)

/-- The optimize cycle: with no provider return the empty list with no
events; otherwise filter the provider candidates by minimum usage,
truncate to the per-cycle maximum and process them sequentially in
provider order, bracketed by start and done events. -/
def runOptimizeCycle (o : Oracle) (jcfg : JudgeConfig) (ocfg : OptimizerConfig)
    (scfg : SchedulerConfig) (provider : Option (List UserPrompt)) (vm : Option Store)
    (jst : JudgeState) (now : String) :
    List OptimizationResult × List SchedulerEvent × JudgeState × Option Store :=
  match provider with
  | none => ([], [], jst, vm)
  | some allPrompts =>
    let prompts := (allPrompts.filter
      (fun p => scfg.minUsageForOptimize ≤ p.usageCount)).take scfg.maxOptimizePerCycle
    let final := prompts.foldl (optimizeCycleStep o jcfg ocfg now) ([], jst, vm)
    let improvedCount := (final.1.filter (fun r => r.improved)).length
    (final.1,
     [{ type := SchedulerEventType.optimizeStart, detail := none },
      { type := SchedulerEventType.optimizeDone,
        detail := some ("Optimized " ++ toString final.1.length ++ " prompts, "
          ++ toString improvedCount ++ " improved") }],
     final.2.1, final.2.2)

lemma optimizePrompt_originalContent (o : Oracle) (jcfg : JudgeConfig) (cfg : OptimizerConfig)
    (st : JudgeState) (c : String) :
    ((optimizePrompt o jcfg cfg st c).1).originalContent = c := by
  unfold optimizePrompt
  dsimp only
  split
  · rfl
  · rfl

lemma optimizeAndVersion_result (o : Oracle) (jcfg : JudgeConfig) (cfg : OptimizerConfig)
    (st : JudgeState) (pid c : String) (σ : Store) (now : String) :
    (optimizeAndVersion o jcfg cfg st pid c σ now).1 = (optimizePrompt o jcfg cfg st c).1 := by
  unfold optimizeAndVersion
  dsimp only
  split
  · rfl
  · rfl

lemma optimizeCycleStep_fold_map (o : Oracle) (jcfg : JudgeConfig) (ocfg : OptimizerConfig)
    (now : String) :
    ∀ (prompts : List UserPrompt) (acc : List OptimizationResult × JudgeState × Option Store),
      ((prompts.foldl (optimizeCycleStep o jcfg ocfg now) acc).1).map
          (fun r => r.originalContent)
        = acc.1.map (fun r => r.originalContent) ++ prompts.map (fun p => p.content) := by
  intro prompts
  induction prompts with
  | nil =>
    intro acc
    simp
  | cons p ps ih =>
    intro acc
    rw [List.foldl_cons, ih]
    have hstep : ((optimizeCycleStep o jcfg ocfg now acc p).1).map (fun r => r.originalContent)
        = acc.1.map (fun r => r.originalContent) ++ [p.content] := by
      unfold optimizeCycleStep
      cases acc.2.2 with
      | some σ =>
        dsimp only
        rw [List.map_append, optimizeAndVersion_result]
        simp [optimizePrompt_originalContent]
      | none =>
        dsimp only
        rw [List.map_append]
        simp [optimizePrompt_originalContent]
    rw [hstep, List.map_cons, List.append_assoc]
    rfl

/-- C9: without a prompt provider the cycle returns the empty list with
no events and no state change; with a provider, the processed
candidates are exactly the ones whose usage count meets the configured
minimum, in provider order, truncated to the per-cycle maximum, and in
particular usage weights 3, 5, 0 with minimum 1 and maximum 2 yield
exactly the first two candidates, the zero-usage one excluded. -/
theorem runOptimizeCycle_selection (o : Oracle) (jcfg : JudgeConfig) (ocfg : OptimizerConfig)
    (scfg : SchedulerConfig) (vm : Option Store) (jst : JudgeState) (now : String) :
    (runOptimizeCycle o jcfg ocfg scfg none vm jst now = ([], [], jst, vm)) ∧
    (∀ allPrompts : List UserPrompt,
      ((runOptimizeCycle o jcfg ocfg scfg (some allPrompts) vm jst now).1).map
          (fun r => r.originalContent)
        = ((allPrompts.filter (fun p => scfg.minUsageForOptimize ≤ p.usageCount)).take
            scfg.maxOptimizePerCycle).map (fun p => p.content)) ∧
    (∀ i1 i2 : ℕ, ∀ en : Bool,
      ((runOptimizeCycle o jcfg ocfg ⟨i1, i2, 2, 1, en⟩
          (some [⟨"user-1", "Write a sorting function", 3⟩,
                 ⟨"user-2", "Help me debug this code", 5⟩,
                 ⟨"user-3", "Explain recursion", 0⟩]) vm jst now).1).map
          (fun r => r.originalContent)
        = ["Write a sorting function", "Help me debug this code"]) := by
  have hmap : ∀ (scfg2 : SchedulerConfig) (allPrompts : List UserPrompt),
      ((runOptimizeCycle o jcfg ocfg scfg2 (some allPrompts) vm jst now).1).map
          (fun r => r.originalContent)
        = ((allPrompts.filter (fun p => scfg2.minUsageForOptimize ≤ p.usageCount)).take
            scfg2.maxOptimizePerCycle).map (fun p => p.content) := by
    intro scfg2 allPrompts
    unfold runOptimizeCycle
    dsimp only
    rw [optimizeCycleStep_fold_map]
    rfl
  refine ⟨rfl, hmap scfg, ?_⟩
  intro i1 i2 en
  rw [hmap]
  rfl

end PromptStash
